import Mathlib

/-!
# Verification of the Ore_Music sonification pipeline (`Ore_Muisc/Process.py`)

Shallow embedding of the numeric core of `XRaySonifier`:
`_load_data`, `_extract_features`, `_generate_events` and
`_add_ambient_effects`, together with the external library routines they
call (`scipy.signal.savgol_filter` with `window_length=11, polyorder=3,
mode='interp'`, `scipy.signal.find_peaks` with a `prominence` bound,
`np.interp`, `np.linspace`, `np.arange`, `np.clip`).

Modelling conventions:
* Python/NumPy double-precision values are modelled by exact rationals `ℚ`.
  The IEEE-754 special values produced by NumPy float division by zero
  (`nan`, `±inf`, which NumPy returns with a warning instead of raising)
  are modelled explicitly by the type `PF` below where they can actually
  arise (the note-duration computation of `_generate_events`, whose
  divisor `max(score)` can be zero, and the values loaded by `_load_data`,
  which performs no finiteness check).
* Exceptions and the `None` results of the source are modelled by `Option`.
* The iteration order of `set(peaks.tolist() + valleys.tolist())` is the
  CPython hash-table slot order, modelled faithfully by `pySetList` below
  (`Objects/setobject.c`: an 8-slot initial table, `hash(i) = i` for small
  non-negative ints — int hashes are not randomized, so the order is
  deterministic —, a 9-slot linear-probe window when it fits below the
  mask, the perturbed probe recurrence, growth to four times the used
  count once the fill reaches 3/5 of the mask, and iteration in ascending
  slot order).  This order is *not* ascending index order in general:
  e.g. `{3, 8}` iterates as `[8, 3]` since `8 & 7 = 0`.
* The process-global NumPy RNG used by `_add_ambient_effects`
  (`np.random.uniform` / `choice` / `randint`, never seeded by the
  program) is modelled as an explicit stream-of-draws state `RNG` that is
  advanced past the consumed draws between successive calls.
-/

namespace OreMusic

/-- IEEE-style value of a NumPy double restricted to what the embedded code
can produce: an exact rational, `nan`, or a signed infinity. -/
inductive PF where
  | nan : PF
  | pinf : PF
  | ninf : PF
  | fin : ℚ → PF
deriving DecidableEq, Repr

/-- NumPy float division `a / b` (never raises; division by zero yields
`nan` for `0/0` and a signed infinity otherwise, with a runtime warning). -/
def pyDiv (a b : ℚ) : PF :=
  if b = 0 then (if a = 0 then .nan else if 0 < a then .pinf else .ninf)
  else .fin (a / b)

/-- Addition of a finite constant to a possibly non-finite value. -/
def pfAdd (c : ℚ) : PF → PF
  | .nan => .nan
  | .pinf => .pinf
  | .ninf => .ninf
  | .fin v => .fin (c + v)

/-- Multiplication of a possibly non-finite value by a finite constant
(`0 * ±inf = nan` as in IEEE-754). -/
def pfMul (c : ℚ) : PF → PF
  | .nan => .nan
  | .pinf => if c = 0 then .nan else if 0 < c then .pinf else .ninf
  | .ninf => if c = 0 then .nan else if 0 < c then .ninf else .pinf
  | .fin v => .fin (c * v)

/-- Rational minimum, written out with `if` (definitionally equal to
`min`, but reducible by the kernel). -/
def qmin (x y : ℚ) : ℚ := if x ≤ y then x else y

/-- Rational maximum, written out with `if`. -/
def qmax (x y : ℚ) : ℚ := if x ≤ y then y else x

/-- Embedding of `np.clip(x, lo, hi) = np.minimum(np.maximum(x, lo), hi)`: propagates
`nan`, sends `+inf` to `hi` and `-inf` to `min lo hi`. -/
def pfClip (x : PF) (lo hi : ℚ) : PF :=
  match x with
  | .nan => .nan
  | .pinf => .fin hi
  | .ninf => .fin (qmin lo hi)
  | .fin v => .fin (qmin (qmax v lo) hi)

/-- Returns `true` exactly for a finite value. -/
def pfFinite : PF → Bool
  | .fin _ => true
  | _ => false

/-- The configuration object of `Process.py` (`Config.__init__`), restricted
to the fields the numeric core reads.  `dynamic_range = (60, 100)` is a pair
of Python ints in the source, hence `ℤ` endpoints. -/
structure Config where
  max_duration : ℚ := 90
  base_bpm : ℕ := 80
  note_duration : ℚ := 2
  dyn_lo : ℤ := 60
  dyn_hi : ℤ := 100
deriving DecidableEq, Repr

/-- The `Config()` instance built in `__main__`. -/
def defaultConfig : Config := {}

/-! ## Savitzky–Golay filter (`savgol_filter(x, 11, 3, mode='interp')`)

`scipy` computes, for a degree-3 least-squares fit on each window of 11
points: the central convolution coefficients for interior indices, and for
the first/last 5 indices the values of the degree-3 polynomial fitted to
the first/last 11 samples (`_fit_edges_polyfit`).  All those values are
rows of the exact rational projection matrix `V (VᵀV)⁻¹ Vᵀ` for the
Vandermonde matrix `V` of degree ≤ 3 on abscissae `0..10`; the rows are
hard-coded below over the common denominator 858 (row 5 is the classical
interior kernel `(-36,9,44,69,84,89,84,69,44,9,-36)/429`). -/

/-- Rows 0–4 of the degree-3 projection matrix on 11 points: the values at
positions `0..4` of the polynomial fitted to a leading window of 11
samples. -/
def sgHead : List (List ℚ) :=
  [[678/858, 288/858, 48/858, -72/858, -102/858, -72/858, -12/858, 48/858, 78/858, 48/858, -72/858],
   [288/858, 246/858, 192/858, 132/858, 72/858, 18/858, -24/858, -48/858, -48/858, -18/858, 48/858],
   [48/858, 192/858, 246/858, 232/858, 172/858, 88/858, 2/858, -64/858, -88/858, -48/858, 78/858],
   [-72/858, 132/858, 232/858, 251/858, 212/858, 138/858, 52/858, -23/858, -64/858, -48/858, 48/858],
   [-102/858, 72/858, 172/858, 212/858, 206/858, 168/858, 112/858, 52/858, 2/858, -24/858, -12/858]]

/-- Row 5 of the projection matrix: the interior smoothing kernel. -/
def sgKernel : List ℚ :=
  [-72/858, 18/858, 88/858, 138/858, 168/858, 178/858, 168/858, 138/858, 88/858, 18/858, -72/858]

/-- Rows 6–10 of the projection matrix: the values at positions `6..10` of
the polynomial fitted to a trailing window of 11 samples. -/
def sgTail : List (List ℚ) :=
  [[-12/858, -24/858, 2/858, 52/858, 112/858, 168/858, 206/858, 212/858, 172/858, 72/858, -102/858],
   [48/858, -48/858, -64/858, -23/858, 52/858, 138/858, 212/858, 251/858, 232/858, 132/858, -72/858],
   [78/858, -48/858, -88/858, -64/858, 2/858, 88/858, 172/858, 232/858, 246/858, 192/858, 48/858],
   [48/858, -18/858, -48/858, -48/858, -24/858, 18/858, 72/858, 132/858, 192/858, 246/858, 288/858],
   [-72/858, 48/858, 78/858, 48/858, -12/858, -72/858, -102/858, -72/858, 48/858, 288/858, 678/858]]

/-- Dot product of two coefficient/sample lists. -/
def dot (a b : List ℚ) : ℚ := (List.zipWith (· * ·) a b).sum

/-- The window of 11 consecutive samples starting at `base`. -/
def sgWindow (x : ℕ → ℚ) (base : ℕ) : List ℚ :=
  (List.range 11).map (fun j => x (base + j))

/-- Embedding of `savgol_filter(x, 11, 3, mode='interp')` at index `i` of a series of
length `n` (only meaningful for `11 ≤ n`, `i < n`; shorter inputs make
scipy raise, see `extract_features`). -/
def savgol (n : ℕ) (x : ℕ → ℚ) (i : ℕ) : ℚ :=
  if i < 5 then dot (sgHead.getD i []) (sgWindow x 0)
  else if n - 5 ≤ i then dot (sgTail.getD (i - (n - 5)) []) (sgWindow x (n - 11))
  else dot sgKernel (sgWindow x (i - 5))

/-! ## Peak detection (`scipy.signal.find_peaks` with a `prominence` bound) -/

/-- Inner `while` of scipy `_local_maxima_1d`: starting from `i`, skip the
plateau of samples equal to `v`, stopping at `imax` or at the first
differing sample.  Fuel-driven; any fuel `≥ imax - i` computes the exact
loop result because the loop advances by one per step and stops at
`imax`. -/
def findAhead (x : ℕ → ℚ) (v : ℚ) (imax : ℕ) : ℕ → ℕ → ℕ
  | 0, i => i
  | fuel + 1, i => if i < imax ∧ x i = v then findAhead x v imax fuel (i + 1) else i

/-- Outer `while` of scipy `_local_maxima_1d` over indices `1 ≤ i < imax`
(`imax = n - 1`): a strictly rising edge followed by a plateau and a
strictly falling edge records the plateau midpoint `(left + right) / 2`.
Fuel-driven; any fuel `≥ imax` computes the exact loop result. -/
def lmLoop (x : ℕ → ℚ) (imax : ℕ) : ℕ → ℕ → List ℕ
  | 0, _ => []
  | fuel + 1, i =>
    if i < imax then
      if x (i - 1) < x i then
        let ia := findAhead x (x i) imax (imax - (i + 1)) (i + 1)
        if x ia < x i then (i + (ia - 1)) / 2 :: lmLoop x imax fuel (ia + 1)
        else lmLoop x imax fuel (i + 1)
      else lmLoop x imax fuel (i + 1)
    else []

/-- All strict local maxima (with plateau handling) of the series
`x 0, …, x (n-1)`, as scipy `_local_maxima_1d` computes them. -/
def localMaxima (n : ℕ) (x : ℕ → ℚ) : List ℕ := lmLoop x (n - 1) n 1

/-- Left half of scipy `_peak_prominences`: minimum of the samples scanned
leftwards from `i` while they stay `≤ xp`, accumulated into `m`. -/
def leftScan (x : ℕ → ℚ) (xp : ℚ) : ℕ → ℚ → ℚ
  | 0, m => if x 0 ≤ xp then min m (x 0) else m
  | i + 1, m => if x (i + 1) ≤ xp then leftScan x xp i (min m (x (i + 1))) else m

/-- Right half of scipy `_peak_prominences`: minimum of the samples scanned
rightwards from `i` up to `imax` while they stay `≤ xp`.  Fuel-driven; the
loop advances by one per step and stops beyond `imax`, so any fuel
`≥ imax + 1 - i` computes the exact loop result. -/
def rightScan (x : ℕ → ℚ) (xp : ℚ) (imax : ℕ) : ℕ → ℕ → ℚ → ℚ
  | 0, _, m => m
  | fuel + 1, i, m =>
      if imax < i then m
      else if x i ≤ xp then rightScan x xp imax fuel (i + 1) (min m (x i)) else m

/-- Prominence of the peak at index `p` in the series of length `n`
(scipy `_peak_prominences` with unbounded window):
`x p - max (min over the left excursion) (min over the right excursion)`
(the right scan's fuel `n` covers its whole range `p ≤ i ≤ n - 1`). -/
def prominence (n : ℕ) (x : ℕ → ℚ) (p : ℕ) : ℚ :=
  x p - max (leftScan x (x p) p (x p)) (rightScan x (x p) (n - 1) n p (x p))

/-- Mean of the first `n` samples. -/
def seriesMean (n : ℕ) (x : ℕ → ℚ) : ℚ := ((List.range n).map x).sum / n

/-- Population variance (`np.std(...)²`, `ddof = 0`) of the first `n`
samples. -/
def variance (n : ℕ) (x : ℕ → ℚ) : ℚ :=
  ((List.range n).map (fun i => (x i - seriesMean n x) ^ 2)).sum / n

/-- Embedding of `find_peaks(x, prominence = 0.5 * np.std(smoothed))`: the local maxima
whose prominence is at least `0.5·√var` where `var` is the variance of the
smoothed series.  Prominences are nonnegative, so the threshold test is
written as the equivalent decidable square comparison
`var ≤ 4 · prominence²`. -/
def findPeaks (n : ℕ) (x : ℕ → ℚ) (var : ℚ) : List ℕ :=
  (localMaxima n x).filter (fun p => decide (var ≤ 4 * prominence n x p ^ 2))

/-! ## Feature extraction (`_extract_features`) -/

/-- A feature dictionary of `_extract_features`, with the originating
sample index `idx` carried as ghost data (it is determined by the
construction and does not influence the sort key). -/
structure Feature where
  idx : ℕ
  angle : ℚ
  intensity : ℚ
  deviation : ℚ
  score : ℚ
deriving DecidableEq, Repr, Inhabited

/-- The feature built for surviving index `i`: `deviation = |angle − 90|`,
`score = smoothed · (1 + deviation/10)`. -/
def mkFeature (angles s : ℕ → ℚ) (i : ℕ) : Feature :=
  { idx := i
    angle := angles i
    intensity := s i
    deviation := |angles i - 90|
    score := s i * (1 + |angles i - 90| / 10) }

/-- One step of the stable descending-by-score insertion: an element is
placed before the first element whose score it is `≥` of, so that
originally-earlier elements precede later ones on ties — exactly the
order of Python's stable `sorted(features, key=lambda x: -x["score"])`. -/
def insertDesc (f : Feature) : List Feature → List Feature
  | [] => [f]
  | g :: t => if g.score ≤ f.score then f :: g :: t else g :: insertDesc f t

/-- Stable sort by score descending (`sorted(..., key=lambda x: -x["score"])`). -/
def sortDesc : List Feature → List Feature
  | [] => []
  | f :: t => insertDesc f (sortDesc t)

/-! ### CPython `set` iteration order (`Objects/setobject.c`)

`_extract_features` iterates `set(peaks.tolist() + valleys.tolist())`.
CPython stores a set in an open-addressing hash table (initial size
`PySet_MINSIZE = 8`) and iterates it in ascending *slot* order, so the
element order depends on the hash-table layout, not on the element
values' order.  For the distinct small non-negative ints inserted here
`hash(i) = i` (and int hashes are not randomized, so the layout is a
deterministic function of the inserted elements).  The model below
follows `set_add_entry` / `set_insert_clean` / `set_table_resize`:
probe start `hash & mask`, a linear-probe window of `LINEAR_PROBES = 9`
extra slots when `i + 9 ≤ mask`, otherwise the perturbed recurrence
`perturb >>= 5; i = (i*5 + 1 + perturb) & mask`, and a resize to the
smallest power of two above `4·used` (doubling from 8) once
`5·fill ≥ 3·mask` after an insertion. -/

/-- Number of occupied slots of a table (`so->fill = so->used`: no
deletions occur here, so there are no dummy entries). -/
def countSome (t : List (Option ℕ)) : ℕ := (t.filterMap id).length

/-- One probe window: starting at slot `i`, check `c` consecutive slots
for the first that is free or already holds `key`. -/
def scanWindow (t : List (Option ℕ)) (key : ℕ) : ℕ → ℕ → Option ℕ
  | _, 0 => none
  | i, c + 1 =>
      if t.getD i (some 0) = none ∨ t.getD i (some 0) = some key then some i
      else scanWindow t key (i + 1) c

/-- The CPython probe loop: scan the window at `i` (the slot itself plus
9 linear probes when the window fits under the mask), else recurse with
`perturb >>= 5; i = (i*5 + 1 + perturb) & mask`.  Fuel-driven; since the
`i*5 + 1` recurrence is full-period modulo a power of two and `perturb`
vanishes after finitely many shifts, any fuel `≥ length + 64` finds the
slot the C loop finds. -/
def probeLoop (t : List (Option ℕ)) (key : ℕ) : ℕ → ℕ → ℕ → ℕ
  | 0, i, _ => i
  | fuel + 1, i, perturb =>
      let probes := if i + 9 ≤ t.length - 1 then 9 else 0
      match scanWindow t key i (probes + 1) with
      | some s => s
      | none => probeLoop t key fuel ((i * 5 + 1 + perturb / 32) % t.length)
          (perturb / 32)

/-- Insert `key` into the table at the slot the probe loop finds (writing
`key` over an equal `key` is the identity, matching the found-active
early return). -/
def setInsert (t : List (Option ℕ)) (key : ℕ) : List (Option ℕ) :=
  t.set (probeLoop t key (t.length + 64) (key % t.length) key) (some key)

/-- Table size after a resize request for `minused` slots: double from 8
while `≤ minused` (`set_table_resize`). -/
def growSize (minused : ℕ) : ℕ → ℕ → ℕ
  | 0, cur => cur
  | f + 1, cur => if cur ≤ minused then growSize minused f (cur * 2) else cur

/-- `set_table_resize(so, used*4)`: re-insert the occupied slots, in slot
order, into a fresh table of the grown size. -/
def setResize (t : List (Option ℕ)) : List (Option ℕ) :=
  let used := countSome t
  t.foldl (fun nt e => match e with | some k => setInsert nt k | none => nt)
    (List.replicate (growSize (used * 4) (used * 4 + 4) 8) none)

/-- `set_add_entry`: a present key is a no-op (no resize check); otherwise
insert, then resize once the fill reaches 3/5 of the mask. -/
def setAddEntry (t : List (Option ℕ)) (k : ℕ) : List (Option ℕ) :=
  if some k ∈ t then t
  else
    let t' := setInsert t k
    if 5 * countSome t' < 3 * (t'.length - 1) then t' else setResize t'

/-- Iteration order of `set(l)` for distinct small non-negative ints:
insert the elements of `l` in order into an 8-slot table, read the
occupied slots in ascending slot order. -/
def pySetList (l : List ℕ) : List ℕ :=
  (l.foldl setAddEntry (List.replicate 8 none)).filterMap id

/-- Embedding of `_extract_features(angles, intensities)`.  `none` models the
`ValueError` scipy raises from `savgol_filter(..., mode='interp')` when the
series is shorter than the window (11); it propagates out of the method
uncaught.  Otherwise, peaks of the smoothed series and of its negation are
collected, the surviving indices are traversed in CPython set-iteration
order (`pySetList`, peaks inserted before valleys) and the features
returned sorted by score descending. -/
def extract_features (angles intensities : List ℚ) : Option (List Feature) :=
  let n := intensities.length
  if n < 11 then none
  else
    let x : ℕ → ℚ := fun i => intensities.getD i 0
    let s : ℕ → ℚ := fun i => savgol n x i
    let v := variance n s
    let peaks := findPeaks n s v
    let valleys := findPeaks n (fun i => -s i) v
    some (sortDesc ((pySetList (peaks ++ valleys)).map
      (mkFeature (fun i => angles.getD i 0) s)))

/-! ## Event generation (`_generate_events`) -/

/-- Python's `min` over a nonempty list (the default is never exercised by
`_generate_events`: on an empty feature list the loop body that evaluates
it never runs). -/
def listMin : List ℚ → ℚ
  | [] => 0
  | a :: t => t.foldl min a

/-- Python's `max` over a nonempty list. -/
def listMax : List ℚ → ℚ
  | [] => 0
  | a :: t => t.foldl max a

/-- Embedding of `np.interp(x, [a, b], [lo, hi])` for two breakpoints with `a ≤ b`, as
computed by numpy's `arr_interp`: values at or beyond the last breakpoint
get `hi` (in particular the degenerate case `a = b = x` yields `hi`, the
binary search landing on the last breakpoint), values below `a` get `lo`,
and interior values are linearly interpolated. -/
def np_interp (x a b lo hi : ℚ) : ℚ :=
  if b ≤ x then hi
  else if x < a then lo
  else lo + (hi - lo) * (x - a) / (b - a)

/-- Python `int()` truncation toward zero of a float value. -/
def pyTrunc (q : ℚ) : ℤ := if 0 ≤ q then ⌊q⌋ else ⌈q⌉

/-- Embedding of `np.clip` on integers: `min (max x lo) hi`. -/
def intClip (x lo hi : ℤ) : ℤ := min (max x lo) hi

/-- Embedding of `cfg.pitch_curve = lambda x: int(30 + 5*(x**0.5))` for `x ≥ 0`:
exactly `⌊30 + 5·√x⌋ = 30 + ⌊√(25·x)⌋ = 30 + Nat.sqrt ⌊25·x⌋`
(the embedding evaluates the square root exactly rather than in binary
floating point). -/
def pitch_curve (d : ℚ) : ℤ := 30 + Nat.sqrt (⌊25 * d⌋).toNat

/-- Embedding of `np.linspace(a, b, n)`: `n` evenly spaced points from `a` to `b`
inclusive; a single point is `a`, and with exact arithmetic the last point
equals `b`. -/
def linspace (a b : ℚ) : ℕ → List ℚ
  | 0 => []
  | 1 => [a]
  | n + 2 => (List.range (n + 2)).map (fun i : ℕ => a + (i : ℚ) * (b - a) / ((n : ℚ) + 1))

/-- A MIDI note event of the melody track. -/
structure Event where
  time : ℚ
  duration : PF
  pitch : ℤ
  velocity : ℤ
deriving DecidableEq, Repr

/-- The event built in one iteration of the `_generate_events` loop, with
`mi`/`mx` the min/max intensity and `ms` the max score over the feature
set (Python recomputes those inside the loop; they are loop-invariant):
* `pitch = np.clip(pitch_curve(deviation), 0, 127)`,
* `velocity = np.clip(int(np.interp(intensity, [mi, mx], dynamic_range)), 0, 127)`,
* `duration = np.clip(note_duration * (0.5 + score / ms), 0.5, max_duration)`
  where the division follows NumPy float semantics (`ms = 0` yields
  `nan`/`±inf`, not an exception). -/
def mkEvent (cfg : Config) (mi mx ms : ℚ) (t : ℚ) (f : Feature) : Event :=
  { time := t
    duration := pfClip (pfMul cfg.note_duration (pfAdd (1/2) (pyDiv f.score ms)))
      (1/2) cfg.max_duration
    pitch := intClip (pitch_curve f.deviation) 0 127
    velocity := intClip
      (pyTrunc (np_interp f.intensity mi mx (cfg.dyn_lo : ℚ) (cfg.dyn_hi : ℚ))) 0 127 }

/-- Embedding of `_generate_events(features)`: onset times
`np.linspace(0.1, cfg.max_duration, len(features))` zipped with the
features. -/
def generate_events (cfg : Config) (fs : List Feature) : List Event :=
  List.zipWith
    (mkEvent cfg (listMin (fs.map (·.intensity))) (listMax (fs.map (·.intensity)))
      (listMax (fs.map (·.score))))
    (linspace (1/10) cfg.max_duration fs.length) fs

/-! ## Ambient layers (`_add_ambient_effects`) -/

/-- The process-global NumPy RNG state, modelled as streams of draws:
`u i` is the `i`-th uniform `[0,1)` variate consumed by
`np.random.uniform`, and `nv i` the `i`-th integer variate consumed by
`np.random.choice` / `np.random.randint` (reduced modulo the requested
range). -/
structure RNG where
  u : ℕ → ℚ
  nv : ℕ → ℕ

/-- The global RNG after `ku` uniform draws and `kn` integer draws have
been consumed. -/
def RNG.shift (g : RNG) (ku kn : ℕ) : RNG :=
  ⟨fun i => g.u (i + ku), fun i => g.nv (i + kn)⟩

/-- A note of an ambient layer. -/
structure ANote where
  track : ℕ
  pitch : ℤ
  time : ℚ
  dur : ℚ
  vel : ℤ
deriving DecidableEq, Repr

/-- Number of grace notes: `int(duration / 3)` (truncation, equal to the
floor for the nonnegative durations used). -/
def graceCount (d : ℚ) : ℕ := (⌊d / 3⌋).toNat

/-- The `i`-th grace note: onset `np.random.uniform(0.5, d - 2)
= 0.5 + (d - 2.5)·u`, pitch `np.random.choice([84, 86, 89])`, duration
`0.15`, velocity `np.clip(np.random.randint(30, 50), 0, 127)`
(`randint(30, 50)` draws from `{30, …, 49}`, the upper bound exclusive). -/
def graceNote (g : RNG) (d : ℚ) (i : ℕ) : ANote :=
  { track := 3
    pitch := ([84, 86, 89] : List ℤ).getD (g.nv (2 * i) % 3) 84
    time := 1/2 + (d - 2 - 1/2) * g.u i
    dur := 3/20
    vel := intClip (30 + (g.nv (2 * i + 1) % 20 : ℤ)) 0 127 }

/-- Embedding of `np.arange(a, b, step)` for `step > 0`: `⌈(b - a)/step⌉` points
`a + k·step`. -/
def arange (a b step : ℚ) : List ℚ :=
  (List.range (⌈(b - a) / step⌉).toNat).map (fun k : ℕ => a + (k : ℚ) * step)

/-- The two ambient note layers plus the reverb controller value that
`_add_ambient_effects` writes (controller 91, value 60, track 2). -/
structure AmbientLayers where
  reverbValue : ℕ
  grace : List ANote
  pulse : List ANote
deriving DecidableEq, Repr

/-- Embedding of `_add_ambient_effects(midi, duration)`: the reverb controller event,
`int(duration/3)` random grace notes on track 3, and a pulse note on
track 2 every 4 seconds from 0.2 up to `duration` (pitch 36, duration 3,
velocity `np.clip(35, 0, 127) = 35`). -/
def add_ambient (g : RNG) (d : ℚ) : AmbientLayers :=
  { reverbValue := 60
    grace := (List.range (graceCount d)).map (graceNote g d)
    pulse := (arange (1/5) d 4).map
      (fun t => { track := 2, pitch := 36, time := t, dur := 3, vel := 35 }) }

/-- Two successive invocations of the ambient generator against the shared
global RNG: the second call starts from the state left by the first, which
has consumed `graceCount d` uniform draws and `2 · graceCount d` integer
draws (the program never reseeds). -/
def ambient_twice (g : RNG) (d : ℚ) : AmbientLayers × AmbientLayers :=
  (add_ambient g d, add_ambient (g.shift (graceCount d) (2 * graceCount d)) d)

/-! ## Data loading (`_load_data`) -/

/-- Embedding of `_load_data`, modelled on the value table parsed by `np.loadtxt`
(entries may be non-finite: `loadtxt` parses `nan`/`inf` tokens without
complaint).  The method validates only the shape — the parsed array must
be 2-dimensional (at least two rows, since a single row loads as a 1-D
array) with exactly two columns — and returns the two columns; every
failure, including the ragged-row `ValueError` raised inside `loadtxt`,
is caught and mapped to `None`.  No finiteness check is performed. -/
def load_data (rows : List (List PF)) : Option (List PF × List PF) :=
  if 2 ≤ rows.length ∧ ∀ r ∈ rows, r.length = 2 then
    some (rows.map (fun r => r.getD 0 .nan), rows.map (fun r => r.getD 1 .nan))
  else none

/-- Whether every entry of the table is finite. -/
def rowsAllFinite (rows : List (List PF)) : Bool :=
  rows.all (fun r => r.all pfFinite)

/-- The order the spec claims `_extract_features` returns features in:
strictly greater score first, ties broken by ascending original sample
index.  The program does *not* guarantee the tie-break half: the stable
sort keeps equal-score features in CPython set-iteration order, which is
not ascending sample index in general (see the tie counterexample). -/
def featLE (f g : Feature) : Prop :=
  g.score < f.score ∨ (f.score = g.score ∧ f.idx < g.idx)

instance (f g : Feature) : Decidable (featLE f g) := by
  unfold featLE; exact inferInstance

/-- Whether a duration value is a finite number inside `[lo, hi]`. -/
def durBetween (lo hi : ℚ) : PF → Bool
  | .fin v => decide (lo ≤ v) && decide (v ≤ hi)
  | _ => false

/-! ### Concrete fixtures used by the closed counterexample/witness theorems -/

/-- A feature whose score is `0` (e.g. a valley whose smoothed intensity is
exactly `0`): the divisor `max(score)` of `_generate_events` is then `0`. -/
def zeroScoreFeature : Feature := ⟨0, 90, 1, 0, 0⟩

/-- A feature with score `1`. -/
def unitScoreFeature : Feature := ⟨0, 90, 1, 0, 1⟩

/-- Two features sharing one intensity value (`5`). -/
def equalIntensityFeatures : List Feature := [⟨0, 90, 5, 0, 1⟩, ⟨1, 80, 5, 10, 1⟩]

/-- Two features sorted by score descending. -/
def sortedPairFeatures : List Feature := [⟨0, 90, 2, 0, 5⟩, ⟨1, 80, 2, 10, 3⟩]

/-- Three features with intensities `0`, `5`, `10`. -/
def spreadFeatures : List Feature :=
  [⟨0, 90, 0, 0, 1⟩, ⟨1, 90, 5, 0, 1⟩, ⟨2, 90, 10, 0, 1⟩]

/-- The middle event generated from `spreadFeatures` under the default
configuration. -/
def spreadMidEvent : Event := ⟨901/20, .fin 3, 30, 80⟩

/-- A concrete global-RNG state with distinguishable successive draws
(`u i = i/(i+1) ∈ [0,1)`, `nv i = i`). -/
def drawRng : RNG := ⟨fun i => (i : ℚ) / (i + 1), fun i => i⟩

/-- An all-zeros RNG state. -/
def zeroRng : RNG := ⟨fun _ => 0, fun _ => 0⟩

/-- An RNG state agreeing with `zeroRng` only on the draws that
`add_ambient` consumes for a 9-second duration (3 uniform draws, 6 integer
draws). -/
def prefixRng : RNG :=
  ⟨fun i => if i < 3 then 0 else 1, fun i => if i < 6 then 0 else 7⟩

/-- A well-shaped two-column table containing `nan` entries. -/
def nanRows : List (List PF) := [[.fin 0, .nan], [.fin 1, .nan]]

/-- A symmetric 12-sample intensity series (`858·[0,1,2,3,1,0,0,1,3,2,1,0]`)
whose smoothed series has strict local maxima at exactly indices 3 and 8
with *equal* values (forced by the symmetry), while the central valley
fails the prominence filter. -/
def tieIntens : List ℚ :=
  [0, 858, 1716, 2574, 858, 0, 0, 858, 2574, 1716, 858, 0]

/-- Angles all equal to the reference 90, so every deviation is 0 and each
score equals its smoothed intensity. -/
def tieAngles : List ℚ := [90, 90, 90, 90, 90, 90, 90, 90, 90, 90, 90, 90]

/-- The exact values `savgol` produces on `tieIntens` (integers, because
the inputs are multiples of the filter's common denominator 858). -/
def tieS : List ℚ :=
  [372, 918, 1206, 1298, 1256, 1142, 1142, 1256, 1298, 1206, 918, 372]

/-- The smoothed series as an indexing function. -/
def tieSFn : ℕ → ℚ := fun i => tieS.getD i 0

/-- The negated smoothed series (the signal `find_peaks` scans for
valleys). -/
def tieNegS : List ℚ :=
  [-372, -918, -1206, -1298, -1256, -1142, -1142, -1256, -1298, -1206,
    -918, -372]

/-- The negated smoothed series as an indexing function. -/
def tieNegSFn : ℕ → ℚ := fun i => tieNegS.getD i 0

/-- The list extraction returns on `tieAngles`/`tieIntens`: the two
equal-score peak features in CPython set-iteration order `[8, 3]` —
descending sample index. -/
def tieFeatures : List Feature :=
  [⟨8, 90, 1298, 0, 1298⟩, ⟨3, 90, 1298, 0, 1298⟩]

/-! ## Helper lemmas -/

theorem mem_insertDesc {a f : Feature} {l : List Feature} :
    a ∈ insertDesc f l ↔ a = f ∨ a ∈ l := by
  induction l with
  | nil => simp [insertDesc]
  | cons g t ih =>
    by_cases h : g.score ≤ f.score
    · simp [insertDesc, h]
    · simp [insertDesc, h, ih]
      tauto

theorem mem_sortDesc {a : Feature} {l : List Feature} :
    a ∈ sortDesc l ↔ a ∈ l := by
  induction l with
  | nil => simp [sortDesc]
  | cons f t ih => simp [sortDesc, mem_insertDesc, ih]

theorem insertDesc_sorted {f : Feature} {l : List Feature}
    (hl : l.Pairwise (fun f g => g.score ≤ f.score)) :
    (insertDesc f l).Pairwise (fun f g => g.score ≤ f.score) := by
  induction l with
  | nil => simp [insertDesc]
  | cons g t ih =>
    rcases List.pairwise_cons.1 hl with ⟨hg, ht⟩
    by_cases h : g.score ≤ f.score
    · rw [insertDesc, if_pos h]
      refine List.pairwise_cons.2 ⟨?_, hl⟩
      intro b hb
      rcases List.mem_cons.1 hb with rfl | hbt
      · exact h
      · exact le_trans (hg b hbt) h
    · rw [insertDesc, if_neg h]
      refine List.pairwise_cons.2 ⟨?_, ih ht⟩
      intro b hb
      rcases mem_insertDesc.1 hb with rfl | hbt
      · exact le_of_lt (lt_of_not_le h)
      · exact hg b hbt

theorem sortDesc_sorted (l : List Feature) :
    (sortDesc l).Pairwise (fun f g => g.score ≤ f.score) := by
  induction l with
  | nil => simp [sortDesc]
  | cons f t ih => exact insertDesc_sorted ih

theorem dot_replicate (l : List ℚ) (c : ℚ) (k : ℕ) (h : l.length ≤ k) :
    dot l (List.replicate k c) = l.sum * c := by
  induction l generalizing k with
  | nil => simp [dot]
  | cons a t ih =>
    cases k with
    | zero => simp at h
    | succ k' =>
      have := ih k' (by simpa using h)
      simp only [List.replicate_succ, dot, List.zipWith_cons_cons, List.sum_cons] at *
      rw [this]
      ring

theorem sgWindow_of_const {x : ℕ → ℚ} {c : ℚ} {n base : ℕ}
    (hx : ∀ i < n, x i = c) (hb : base + 11 ≤ n) :
    sgWindow x base = List.replicate 11 c := by
  refine List.eq_replicate_iff.2 ⟨by simp [sgWindow], ?_⟩
  intro b hb'
  rcases List.mem_map.1 hb' with ⟨j, hj, rfl⟩
  have hj' : j < 11 := List.mem_range.1 hj
  exact hx _ (by omega)

theorem savgol_of_const {x : ℕ → ℚ} {c : ℚ} {n : ℕ} (hn : 11 ≤ n)
    (hx : ∀ i < n, x i = c) {i : ℕ} (hi : i < n) :
    savgol n x i = c := by
  have hsum : ∀ l : List ℚ, l.length = 11 → l.sum = 1 →
      dot l (List.replicate 11 c) = c := by
    intro l hlen hs
    rw [dot_replicate l c 11 (le_of_eq hlen), hs, one_mul]
  unfold savgol
  by_cases h5 : i < 5
  · rw [if_pos h5, sgWindow_of_const hx (by omega)]
    interval_cases i <;>
      exact hsum _ (by norm_num [sgHead]) (by norm_num [sgHead])
  · rw [if_neg h5]
    by_cases ht : n - 5 ≤ i
    · rw [if_pos ht, sgWindow_of_const hx (by omega)]
      have hk : i - (n - 5) < 5 := by omega
      set k := i - (n - 5) with hkdef
      interval_cases k <;>
        exact hsum _ (by norm_num [sgTail]) (by norm_num [sgTail])
    · rw [if_neg ht, sgWindow_of_const hx (by omega)]
      exact hsum _ (by norm_num [sgKernel]) (by norm_num [sgKernel])

theorem lmLoop_of_const {x : ℕ → ℚ} {c : ℚ} {imax : ℕ}
    (hx : ∀ j ≤ imax, x j = c) :
    ∀ fuel i, lmLoop x imax fuel i = [] := by
  intro fuel
  induction fuel with
  | zero => intro i; rfl
  | succ f ih =>
    intro i
    rw [lmLoop]
    by_cases h : i < imax
    · rw [if_pos h]
      have h1 : x (i - 1) = c := hx _ (by omega)
      have h2 : x i = c := hx _ (by omega)
      rw [if_neg (by rw [h1, h2]; exact lt_irrefl c)]
      exact ih (i + 1)
    · rw [if_neg h]

theorem localMaxima_of_const {x : ℕ → ℚ} {c : ℚ} {n : ℕ}
    (hx : ∀ j < n, x j = c) (hn : 1 ≤ n) :
    localMaxima n x = [] :=
  lmLoop_of_const (fun j hj => hx j (by omega)) n 1

theorem extract_features_replicate (angles : List ℚ) (n : ℕ) (c : ℚ)
    (h : 11 ≤ n) :
    extract_features angles (List.replicate n c) = some [] := by
  have hlen : (List.replicate n c).length = n := List.length_replicate n c
  have hx : ∀ i < n, (List.replicate n c).getD i 0 = c := by
    intro i hi
    rw [List.getD_eq_getElem?_getD, List.getElem?_replicate, if_pos hi]
    rfl
  have hs : ∀ i < n, savgol n (fun j => (List.replicate n c).getD j 0) i = c :=
    fun i hi => savgol_of_const h hx hi
  unfold extract_features
  rw [hlen, if_neg (by omega)]
  have hpeaks : localMaxima n (fun i =>
      savgol n (fun j => (List.replicate n c).getD j 0) i) = [] :=
    localMaxima_of_const hs (by omega)
  have hvalleys : localMaxima n (fun i =>
      -savgol n (fun j => (List.replicate n c).getD j 0) i) = [] :=
    localMaxima_of_const (c := -c) (fun j hj => by rw [hs j hj]) (by omega)
  simp only [findPeaks, hpeaks, hvalleys, List.filter_nil, List.nil_append]
  rfl

theorem mem_zipWith {α β γ : Type} {f : α → β → γ} {l1 : List α}
    {l2 : List β} {c : γ} (h : c ∈ List.zipWith f l1 l2) :
    ∃ a b, a ∈ l1 ∧ b ∈ l2 ∧ c = f a b := by
  induction l1 generalizing l2 with
  | nil => simp at h
  | cons a t ih =>
    cases l2 with
    | nil => simp at h
    | cons b t2 =>
      rcases List.mem_cons.1 h with rfl | h'
      · exact ⟨a, b, List.mem_cons_self _ _, List.mem_cons_self _ _, rfl⟩
      · rcases ih h' with ⟨a', b', ha, hb, rfl⟩
        exact ⟨a', b', List.mem_cons_of_mem _ ha, List.mem_cons_of_mem _ hb, rfl⟩

theorem map_zipWith_snd {α β γ δ : Type} (f : α → β → γ) (g : γ → δ)
    (h : β → δ) (l1 : List α) (l2 : List β) (hlen : l2.length ≤ l1.length)
    (hfg : ∀ a b, b ∈ l2 → g (f a b) = h b) :
    (List.zipWith f l1 l2).map g = l2.map h := by
  induction l2 generalizing l1 with
  | nil => simp
  | cons b t ih =>
    cases l1 with
    | nil => simp at hlen
    | cons a t1 =>
      simp only [List.zipWith_cons_cons, List.map_cons]
      rw [hfg a b (List.mem_cons_self _ _),
        ih t1 (by simpa using hlen) (fun a' b' hb' => hfg a' b' (List.mem_cons_of_mem _ hb'))]

theorem map_zipWith_fst {α β γ δ : Type} (f : α → β → γ) (g : γ → δ)
    (h : α → δ) (l1 : List α) (l2 : List β) (hlen : l1.length ≤ l2.length)
    (hfg : ∀ a b, a ∈ l1 → g (f a b) = h a) :
    (List.zipWith f l1 l2).map g = l1.map h := by
  induction l1 generalizing l2 with
  | nil => simp
  | cons a t ih =>
    cases l2 with
    | nil => simp at hlen
    | cons b t2 =>
      simp only [List.zipWith_cons_cons, List.map_cons]
      rw [hfg a b (List.mem_cons_self _ _),
        ih t2 (by simpa using hlen) (fun a' b' ha' => hfg a' b' (List.mem_cons_of_mem _ ha'))]

theorem foldl_min_le_init (t : List ℚ) : ∀ a : ℚ, t.foldl min a ≤ a := by
  induction t with
  | nil => intro a; simp
  | cons b t' ih =>
    intro a
    calc t'.foldl min (min a b) ≤ min a b := ih (min a b)
    _ ≤ a := min_le_left _ _

theorem le_foldl_max_init (t : List ℚ) : ∀ a : ℚ, a ≤ t.foldl max a := by
  induction t with
  | nil => intro a; simp
  | cons b t' ih =>
    intro a
    calc a ≤ max a b := le_max_left _ _
    _ ≤ t'.foldl max (max a b) := ih (max a b)

theorem listMin_le {l : List ℚ} {q : ℚ} (h : q ∈ l) : listMin l ≤ q := by
  cases l with
  | nil => simp at h
  | cons a t =>
    rw [listMin]
    rcases List.mem_cons.1 h with rfl | ht
    · exact foldl_min_le_init t q
    · clear h
      induction t generalizing a with
      | nil => simp at ht
      | cons b t' ih =>
        rcases List.mem_cons.1 ht with rfl | ht'
        · calc t'.foldl min (min a q) ≤ min a q := foldl_min_le_init t' _
          _ ≤ q := min_le_right _ _
        · exact ih (min a b) ht'

theorem le_listMax {l : List ℚ} {q : ℚ} (h : q ∈ l) : q ≤ listMax l := by
  cases l with
  | nil => simp at h
  | cons a t =>
    rw [listMax]
    rcases List.mem_cons.1 h with rfl | ht
    · exact le_foldl_max_init t q
    · clear h
      induction t generalizing a with
      | nil => simp at ht
      | cons b t' ih =>
        rcases List.mem_cons.1 ht with rfl | ht'
        · calc q ≤ max a q := le_max_right _ _
          _ ≤ t'.foldl max (max a q) := le_foldl_max_init t' _
        · exact ih (max a b) ht'

theorem foldl_min_const : ∀ (t : List ℚ) (a : ℚ),
    (∀ q ∈ t, q = a) → t.foldl min a = a := by
  intro t
  induction t with
  | nil => intro a _; rfl
  | cons b t' ih =>
    intro a h
    have hb : b = a := h b (by simp)
    subst hb
    rw [List.foldl_cons, min_self]
    exact ih b (fun q hq => h q (by simp [hq]))

theorem foldl_max_const : ∀ (t : List ℚ) (a : ℚ),
    (∀ q ∈ t, q = a) → t.foldl max a = a := by
  intro t
  induction t with
  | nil => intro a _; rfl
  | cons b t' ih =>
    intro a h
    have hb : b = a := h b (by simp)
    subst hb
    rw [List.foldl_cons, max_self]
    exact ih b (fun q hq => h q (by simp [hq]))

theorem listMin_of_const {l : List ℚ} {c : ℚ} (h : ∀ q ∈ l, q = c)
    (hne : l ≠ []) : listMin l = c := by
  cases l with
  | nil => exact absurd rfl hne
  | cons a t =>
    have ha : a = c := h a (List.mem_cons_self _ _)
    subst ha
    rw [listMin]
    exact foldl_min_const t a (fun q hq => h q (by simp [hq]))

theorem listMax_of_const {l : List ℚ} {c : ℚ} (h : ∀ q ∈ l, q = c)
    (hne : l ≠ []) : listMax l = c := by
  cases l with
  | nil => exact absurd rfl hne
  | cons a t =>
    have ha : a = c := h a (List.mem_cons_self _ _)
    subst ha
    rw [listMax]
    exact foldl_max_const t a (fun q hq => h q (by simp [hq]))

theorem np_interp_bounds {x a b lo hi : ℚ} (hax : a ≤ x) (hxb : x ≤ b)
    (hlohi : lo ≤ hi) :
    lo ≤ np_interp x a b lo hi ∧ np_interp x a b lo hi ≤ hi := by
  unfold np_interp
  by_cases h1 : b ≤ x
  · rw [if_pos h1]; exact ⟨hlohi, le_refl _⟩
  · rw [if_neg h1]
    by_cases h2 : x < a
    · rw [if_pos h2]; exact ⟨le_refl _, hlohi⟩
    · rw [if_neg h2]
      have hba : 0 < b - a := by
        push_neg at h1 h2
        linarith
      have ht0 : 0 ≤ (hi - lo) * (x - a) / (b - a) :=
        div_nonneg (mul_nonneg (by linarith) (by linarith)) (le_of_lt hba)
      have ht1 : (hi - lo) * (x - a) / (b - a) ≤ hi - lo := by
        rw [div_le_iff₀ hba]
        have : x - a ≤ b - a := by linarith
        nlinarith
      constructor <;> linarith

theorem pyTrunc_intCast (z : ℤ) : pyTrunc (z : ℚ) = z := by
  unfold pyTrunc
  by_cases h : (0 : ℚ) ≤ (z : ℚ)
  · rw [if_pos h, Int.floor_intCast]
  · rw [if_neg h, Int.ceil_intCast]

theorem pyTrunc_bounds {q : ℚ} {lo hi : ℤ} (h1 : (lo : ℚ) ≤ q)
    (h2 : q ≤ (hi : ℚ)) : lo ≤ pyTrunc q ∧ pyTrunc q ≤ hi := by
  unfold pyTrunc
  by_cases h : (0 : ℚ) ≤ q
  · rw [if_pos h]
    exact ⟨Int.le_floor.2 h1, by
      have := Int.floor_le_floor h2
      rwa [Int.floor_intCast] at this⟩
  · rw [if_neg h]
    exact ⟨by
      have := Int.ceil_le_ceil h1
      rwa [Int.ceil_intCast] at this, Int.ceil_le.2 h2⟩

theorem intClip_bounds (x lo hi : ℤ) (h : lo ≤ hi) :
    lo ≤ intClip x lo hi ∧ intClip x lo hi ≤ hi :=
  ⟨le_min (le_trans (le_refl lo) (le_max_right x lo)) h, min_le_right _ _⟩

theorem intClip_of_bounds {x lo hi lo' hi' : ℤ} (h1 : lo' ≤ x) (h2 : x ≤ hi')
    (h3 : lo ≤ lo') (h4 : hi' ≤ hi) : intClip x lo hi = x := by
  unfold intClip
  rw [max_eq_left (le_trans h3 h1), min_eq_left (le_trans h2 h4)]

theorem qmin_eq_min (x y : ℚ) : qmin x y = min x y := by
  by_cases h : x ≤ y <;> simp [qmin, min_def, h]

theorem qmax_eq_max (x y : ℚ) : qmax x y = max x y := by
  by_cases h : x ≤ y <;> simp [qmax, max_def, h]

theorem le_qmin {z x y : ℚ} (h1 : z ≤ x) (h2 : z ≤ y) : z ≤ qmin x y := by
  rw [qmin_eq_min]; exact le_min h1 h2

theorem qmin_le_right (x y : ℚ) : qmin x y ≤ y := by
  rw [qmin_eq_min]; exact min_le_right _ _

theorem le_qmax_right (x y : ℚ) : y ≤ qmax x y := by
  rw [qmax_eq_max]; exact le_max_right _ _

theorem linspace_length (a b : ℚ) (n : ℕ) : (linspace a b n).length = n := by
  rcases n with _ | _ | m
  · rfl
  · rfl
  · rw [linspace, List.length_map, List.length_range]

theorem linspace_eq_formula (a b : ℚ) (n : ℕ) :
    linspace a b n = (List.range n).map
      (fun i : ℕ => if n = 1 then a else a + (i : ℚ) * (b - a) / ((n : ℚ) - 1)) := by
  rcases n with _ | _ | m
  · rfl
  · show [a] = _
    simp [List.range_succ]
  · rw [linspace]
    refine List.map_congr_left ?_
    intro i _
    rw [if_neg (by omega)]
    push_cast
    ring

theorem chain'_le_map_range (f : ℕ → ℚ) (n : ℕ)
    (hf : ∀ i, i + 1 < n → f i ≤ f (i + 1)) :
    List.Chain' (· ≤ ·) ((List.range n).map f) := by
  rw [List.chain'_map]
  cases n with
  | zero => simp
  | succ m =>
    rw [List.chain'_range_succ]
    intro i hi
    exact hf i (by omega)

theorem head?_map_range {α : Type} (f : ℕ → α) (n : ℕ) (h : 0 < n) :
    ((List.range n).map f).head? = some (f 0) := by
  cases n with
  | zero => omega
  | succ m => rw [List.range_succ_eq_map]; simp

theorem getLast?_map_range {α : Type} (f : ℕ → α) (n : ℕ) (h : 0 < n) :
    ((List.range n).map f).getLast? = some (f (n - 1)) := by
  cases n with
  | zero => omega
  | succ m =>
    rw [List.range_succ, List.map_append]
    simp

/-! ### Branch lemmas for `savgol` -/

theorem savgol_head (n : ℕ) (x : ℕ → ℚ) (i : ℕ) (h : i < 5) :
    savgol n x i = dot (sgHead.getD i []) (sgWindow x 0) := by
  simp only [savgol]
  rw [if_pos h]

theorem savgol_mid (n : ℕ) (x : ℕ → ℚ) (i : ℕ) (h1 : ¬ i < 5) (h2 : ¬ n - 5 ≤ i) :
    savgol n x i = dot sgKernel (sgWindow x (i - 5)) := by
  simp only [savgol]
  rw [if_neg h1, if_neg h2]

theorem savgol_tail (n : ℕ) (x : ℕ → ℚ) (i : ℕ) (h1 : ¬ i < 5) (h2 : n - 5 ≤ i) :
    savgol n x i = dot (sgTail.getD (i - (n - 5)) []) (sgWindow x (n - 11)) := by
  simp only [savgol]
  rw [if_neg h1, if_pos h2]

/-! ### Congruence lemmas: every stage of `find_peaks` only reads the
series on `0 … n - 1`, so two pointwise-equal series give equal results.
These transfer the computation on `fun i => savgol …` to the literal-backed
`tieSFn`, where the loops evaluate by `decide`. -/

theorem findAhead_le {x : ℕ → ℚ} {v : ℚ} {imax : ℕ} :
    ∀ fuel i, i ≤ imax → findAhead x v imax fuel i ≤ imax := by
  intro fuel
  induction fuel with
  | zero => intro i h; exact h
  | succ f ih =>
    intro i h
    rw [findAhead]
    by_cases hc : i < imax ∧ x i = v
    · rw [if_pos hc]
      exact ih (i + 1) (by omega)
    · rw [if_neg hc]
      exact h

theorem findAhead_congr {x y : ℕ → ℚ} {v : ℚ} {imax : ℕ}
    (h : ∀ j, j < imax → x j = y j) :
    ∀ fuel i, findAhead x v imax fuel i = findAhead y v imax fuel i := by
  intro fuel
  induction fuel with
  | zero => intro i; rfl
  | succ f ih =>
    intro i
    rw [findAhead, findAhead]
    by_cases hi : i < imax
    · rw [h i hi]
      by_cases hc : i < imax ∧ y i = v
      · rw [if_pos hc, if_pos hc]
        exact ih (i + 1)
      · rw [if_neg hc, if_neg hc]
    · rw [if_neg (show ¬ (i < imax ∧ x i = v) from fun hc => hi hc.1),
        if_neg (show ¬ (i < imax ∧ y i = v) from fun hc => hi hc.1)]

theorem lmLoop_congr {x y : ℕ → ℚ} {imax : ℕ}
    (h : ∀ j, j ≤ imax → x j = y j) :
    ∀ fuel i, lmLoop x imax fuel i = lmLoop y imax fuel i := by
  intro fuel
  induction fuel with
  | zero => intro i; rfl
  | succ f ih =>
    intro i
    simp only [lmLoop]
    by_cases hi : i < imax
    · rw [if_pos hi, if_pos hi, h (i - 1) (by omega), h i (by omega)]
      by_cases hr : y (i - 1) < y i
      · rw [if_pos hr, if_pos hr,
          findAhead_congr (fun j hj => h j (Nat.le_of_lt hj)) (imax - (i + 1)) (i + 1),
          h (findAhead y (y i) imax (imax - (i + 1)) (i + 1))
            (findAhead_le (imax - (i + 1)) (i + 1) (by omega))]
        by_cases hp : y (findAhead y (y i) imax (imax - (i + 1)) (i + 1)) < y i
        · rw [if_pos hp, if_pos hp, ih]
        · rw [if_neg hp, if_neg hp, ih]
      · rw [if_neg hr, if_neg hr, ih]
    · rw [if_neg hi, if_neg hi]

theorem localMaxima_congr {x y : ℕ → ℚ} {n : ℕ}
    (h : ∀ j, j ≤ n - 1 → x j = y j) :
    localMaxima n x = localMaxima n y := by
  unfold localMaxima
  exact lmLoop_congr h n 1

theorem leftScan_congr {x y : ℕ → ℚ} {xp : ℚ} :
    ∀ i m, (∀ j, j ≤ i → x j = y j) → leftScan x xp i m = leftScan y xp i m := by
  intro i
  induction i with
  | zero =>
    intro m h
    simp only [leftScan]
    rw [h 0 le_rfl]
  | succ k ih =>
    intro m h
    simp only [leftScan]
    rw [h (k + 1) le_rfl]
    by_cases hc : y (k + 1) ≤ xp
    · rw [if_pos hc, if_pos hc, ih _ (fun j hj => h j (by omega))]
    · rw [if_neg hc, if_neg hc]

theorem rightScan_congr {x y : ℕ → ℚ} {xp : ℚ} {imax : ℕ}
    (h : ∀ j, j ≤ imax → x j = y j) :
    ∀ fuel i m, rightScan x xp imax fuel i m = rightScan y xp imax fuel i m := by
  intro fuel
  induction fuel with
  | zero => intro i m; rfl
  | succ f ih =>
    intro i m
    simp only [rightScan]
    by_cases hi : imax < i
    · rw [if_pos hi, if_pos hi]
    · rw [if_neg hi, if_neg hi, h i (by omega)]
      by_cases hc : y i ≤ xp
      · rw [if_pos hc, if_pos hc, ih]
      · rw [if_neg hc, if_neg hc]

theorem prominence_congr {x y : ℕ → ℚ} {n p : ℕ}
    (h : ∀ j, j ≤ n - 1 → x j = y j) (hp : p ≤ n - 1) :
    prominence n x p = prominence n y p := by
  unfold prominence
  rw [h p hp, leftScan_congr p (y p) (fun j hj => h j (le_trans hj hp)),
    rightScan_congr h n p (y p)]

theorem seriesMean_congr {x y : ℕ → ℚ} {n : ℕ}
    (h : ∀ j, j < n → x j = y j) :
    seriesMean n x = seriesMean n y := by
  unfold seriesMean
  rw [List.map_congr_left (fun j hj => h j (List.mem_range.1 hj))]

theorem variance_congr {x y : ℕ → ℚ} {n : ℕ}
    (h : ∀ j, j < n → x j = y j) :
    variance n x = variance n y := by
  unfold variance
  rw [seriesMean_congr h]
  have hsq : ∀ j ∈ List.range n,
      (x j - seriesMean n y) ^ 2 = (y j - seriesMean n y) ^ 2 :=
    fun j hj => by rw [h j (List.mem_range.1 hj)]
  rw [List.map_congr_left hsq]

/-! ### Evaluation of extraction on the concrete tie input -/

theorem tie_win0 :
    sgWindow (fun j => tieIntens.getD j 0) 0
      = [0, 858, 1716, 2574, 858, 0, 0, 858, 2574, 1716, 858] := by
  decide

theorem tie_win1 :
    sgWindow (fun j => tieIntens.getD j 0) 1
      = [858, 1716, 2574, 858, 0, 0, 858, 2574, 1716, 858, 0] := by
  decide

theorem tie_s0 : savgol 12 (fun k => tieIntens.getD k 0) 0 = 372 := by
  rw [savgol_head 12 _ 0 (by omega), tie_win0]
  norm_num [sgHead, dot]

theorem tie_s1 : savgol 12 (fun k => tieIntens.getD k 0) 1 = 918 := by
  rw [savgol_head 12 _ 1 (by omega), tie_win0]
  norm_num [sgHead, dot]

theorem tie_s2 : savgol 12 (fun k => tieIntens.getD k 0) 2 = 1206 := by
  rw [savgol_head 12 _ 2 (by omega), tie_win0]
  norm_num [sgHead, dot]

theorem tie_s3 : savgol 12 (fun k => tieIntens.getD k 0) 3 = 1298 := by
  rw [savgol_head 12 _ 3 (by omega), tie_win0]
  norm_num [sgHead, dot]

theorem tie_s4 : savgol 12 (fun k => tieIntens.getD k 0) 4 = 1256 := by
  rw [savgol_head 12 _ 4 (by omega), tie_win0]
  norm_num [sgHead, dot]

theorem tie_s5 : savgol 12 (fun k => tieIntens.getD k 0) 5 = 1142 := by
  rw [savgol_mid 12 _ 5 (by omega) (by omega)]
  show dot sgKernel (sgWindow (fun k => tieIntens.getD k 0) 0) = 1142
  rw [tie_win0]
  norm_num [sgKernel, dot]

theorem tie_s6 : savgol 12 (fun k => tieIntens.getD k 0) 6 = 1142 := by
  rw [savgol_mid 12 _ 6 (by omega) (by omega)]
  show dot sgKernel (sgWindow (fun k => tieIntens.getD k 0) 1) = 1142
  rw [tie_win1]
  norm_num [sgKernel, dot]

theorem tie_s7 : savgol 12 (fun k => tieIntens.getD k 0) 7 = 1256 := by
  rw [savgol_tail 12 _ 7 (by omega) (by omega)]
  show dot (sgTail.getD 0 []) (sgWindow (fun k => tieIntens.getD k 0) 1) = 1256
  rw [tie_win1]
  norm_num [sgTail, dot]

theorem tie_s8 : savgol 12 (fun k => tieIntens.getD k 0) 8 = 1298 := by
  rw [savgol_tail 12 _ 8 (by omega) (by omega)]
  show dot (sgTail.getD 1 []) (sgWindow (fun k => tieIntens.getD k 0) 1) = 1298
  rw [tie_win1]
  norm_num [sgTail, dot]

theorem tie_s9 : savgol 12 (fun k => tieIntens.getD k 0) 9 = 1206 := by
  rw [savgol_tail 12 _ 9 (by omega) (by omega)]
  show dot (sgTail.getD 2 []) (sgWindow (fun k => tieIntens.getD k 0) 1) = 1206
  rw [tie_win1]
  norm_num [sgTail, dot]

theorem tie_s10 : savgol 12 (fun k => tieIntens.getD k 0) 10 = 918 := by
  rw [savgol_tail 12 _ 10 (by omega) (by omega)]
  show dot (sgTail.getD 3 []) (sgWindow (fun k => tieIntens.getD k 0) 1) = 918
  rw [tie_win1]
  norm_num [sgTail, dot]

theorem tie_s11 : savgol 12 (fun k => tieIntens.getD k 0) 11 = 372 := by
  rw [savgol_tail 12 _ 11 (by omega) (by omega)]
  show dot (sgTail.getD 4 []) (sgWindow (fun k => tieIntens.getD k 0) 1) = 372
  rw [tie_win1]
  norm_num [sgTail, dot]

theorem tie_savgol :
    ∀ j, j < 12 → savgol 12 (fun k => tieIntens.getD k 0) j = tieSFn j := by
  intro j hj
  interval_cases j
  · exact tie_s0
  · exact tie_s1
  · exact tie_s2
  · exact tie_s3
  · exact tie_s4
  · exact tie_s5
  · exact tie_s6
  · exact tie_s7
  · exact tie_s8
  · exact tie_s9
  · exact tie_s10
  · exact tie_s11

theorem tie_negS : ∀ j, j < 12 → -tieSFn j = tieNegSFn j := by
  intro j hj
  interval_cases j <;> rfl

theorem tie_savgolNeg :
    ∀ j, j < 12 → -savgol 12 (fun k => tieIntens.getD k 0) j = tieNegSFn j := by
  intro j hj
  rw [tie_savgol j hj]
  exact tie_negS j hj

theorem tie_mean : seriesMean 12 tieSFn = 1032 := by
  unfold seriesMean
  rw [show List.range 12 = [0, 1, 2, 3, 4, 5, 6, 7, 8, 9, 10, 11] from by decide]
  norm_num [tieSFn, tieS]

theorem tie_var : variance 12 tieSFn = 101984 := by
  unfold variance
  rw [tie_mean, show List.range 12 = [0, 1, 2, 3, 4, 5, 6, 7, 8, 9, 10, 11] from by decide]
  norm_num [tieSFn, tieS]

theorem tie_prom3 : prominence 12 tieSFn 3 = 926 := by
  unfold prominence
  rw [show leftScan tieSFn (tieSFn 3) 3 (tieSFn 3) = 372 from by decide,
    show rightScan tieSFn (tieSFn 3) (12 - 1) 12 3 (tieSFn 3) = 372 from by decide,
    max_self]
  norm_num [tieSFn, tieS]

theorem tie_prom8 : prominence 12 tieSFn 8 = 926 := by
  unfold prominence
  rw [show leftScan tieSFn (tieSFn 8) 8 (tieSFn 8) = 372 from by decide,
    show rightScan tieSFn (tieSFn 8) (12 - 1) 12 8 (tieSFn 8) = 372 from by decide,
    max_self]
  norm_num [tieSFn, tieS]

theorem tie_promNeg5 : prominence 12 tieNegSFn 5 = 156 := by
  unfold prominence
  rw [show leftScan tieNegSFn (tieNegSFn 5) 5 (tieNegSFn 5) = -1298 from by decide,
    show rightScan tieNegSFn (tieNegSFn 5) (12 - 1) 12 5 (tieNegSFn 5) = -1298
      from by decide,
    max_self]
  norm_num [tieNegSFn, tieNegS]

theorem tie_findPeaks_pos :
    findPeaks 12 (fun i => savgol 12 (fun k => tieIntens.getD k 0) i) 101984
      = [3, 8] := by
  unfold findPeaks
  rw [show localMaxima 12 (fun i => savgol 12 (fun k => tieIntens.getD k 0) i)
      = localMaxima 12 tieSFn from
    localMaxima_congr (fun j hj => tie_savgol j (by omega)),
    show localMaxima 12 tieSFn = [3, 8] from by decide]
  simp only [List.filter_cons, List.filter_nil]
  rw [show prominence 12 (fun i => savgol 12 (fun k => tieIntens.getD k 0) i) 3 = 926
      from (prominence_congr (fun j hj => tie_savgol j (by omega)) (by omega)).trans
        tie_prom3,
    show prominence 12 (fun i => savgol 12 (fun k => tieIntens.getD k 0) i) 8 = 926
      from (prominence_congr (fun j hj => tie_savgol j (by omega)) (by omega)).trans
        tie_prom8]
  norm_num

theorem tie_findPeaks_neg :
    findPeaks 12 (fun i => -savgol 12 (fun k => tieIntens.getD k 0) i) 101984
      = [] := by
  unfold findPeaks
  rw [show localMaxima 12 (fun i => -savgol 12 (fun k => tieIntens.getD k 0) i)
      = localMaxima 12 tieNegSFn from
    localMaxima_congr (fun j hj => tie_savgolNeg j (by omega)),
    show localMaxima 12 tieNegSFn = [5] from by decide]
  simp only [List.filter_cons, List.filter_nil]
  rw [show prominence 12 (fun i => -savgol 12 (fun k => tieIntens.getD k 0) i) 5 = 156
      from (prominence_congr (fun j hj => tie_savgolNeg j (by omega)) (by omega)).trans
        tie_promNeg5]
  norm_num

theorem tie_F8 :
    mkFeature (fun i => tieAngles.getD i 0)
      (fun i => savgol 12 (fun k => tieIntens.getD k 0) i) 8
      = ⟨8, 90, 1298, 0, 1298⟩ := by
  simp only [mkFeature]
  rw [show savgol 12 (fun k => tieIntens.getD k 0) 8 = (1298 : ℚ)
      from tie_savgol 8 (by omega),
    show tieAngles.getD 8 0 = (90 : ℚ) from by decide]
  norm_num

theorem tie_F3 :
    mkFeature (fun i => tieAngles.getD i 0)
      (fun i => savgol 12 (fun k => tieIntens.getD k 0) i) 3
      = ⟨3, 90, 1298, 0, 1298⟩ := by
  simp only [mkFeature]
  rw [show savgol 12 (fun k => tieIntens.getD k 0) 3 = (1298 : ℚ)
      from tie_savgol 3 (by omega),
    show tieAngles.getD 3 0 = (90 : ℚ) from by decide]
  norm_num

theorem tie_extract : extract_features tieAngles tieIntens = some tieFeatures := by
  simp only [extract_features, show tieIntens.length = 12 from rfl]
  rw [if_neg (by omega : ¬ (12 : ℕ) < 11)]
  rw [show variance 12 (fun i => savgol 12 (fun k => tieIntens.getD k 0) i) = 101984
      from (variance_congr (fun j hj => tie_savgol j hj)).trans tie_var]
  rw [tie_findPeaks_pos, tie_findPeaks_neg]
  rw [show pySetList ([3, 8] ++ []) = [8, 3] from by decide]
  simp only [List.map_cons, List.map_nil]
  rw [tie_F8, tie_F3]
  rw [show sortDesc [(⟨8, 90, 1298, 0, 1298⟩ : Feature), ⟨3, 90, 1298, 0, 1298⟩]
      = [(⟨8, 90, 1298, 0, 1298⟩ : Feature), ⟨3, 90, 1298, 0, 1298⟩] from by decide]
  rfl

theorem graceCount_nine : graceCount 9 = 3 := by
  unfold graceCount
  rw [show ⌊(9:ℚ) / 3⌋ = (3:ℤ) from by norm_num]
  rfl

theorem generate_events_single_unit :
    generate_events defaultConfig [unitScoreFeature]
      = [⟨1/10, .fin 3, 30, 100⟩] := by
  rw [generate_events]
  norm_num [linspace, mkEvent, listMin, listMax, unitScoreFeature,
    defaultConfig, pyDiv, pfAdd, pfMul, pfClip, qmin, qmax, np_interp,
    pyTrunc, intClip, pitch_curve]

theorem spread_times : linspace (1/10) 90 3 = [1/10, 901/20, 90] := by
  rw [linspace_eq_formula]
  rw [show (3:ℕ) = 2 + 1 from rfl]
  simp only [List.range_succ, List.map_append, List.map_cons, List.range_zero,
    List.map_nil, List.nil_append, List.cons_append]
  norm_num

theorem spread_event_head :
    mkEvent defaultConfig 0 10 1 (1/10) (⟨0, 90, 0, 0, 1⟩ : Feature)
      = ⟨1/10, .fin 3, 30, 60⟩ := by
  norm_num [mkEvent, defaultConfig, pyDiv, pfAdd, pfMul, pfClip, qmin, qmax,
    np_interp, pyTrunc, intClip, pitch_curve]

theorem spread_event_mid :
    mkEvent defaultConfig 0 10 1 (901/20) (⟨1, 90, 5, 0, 1⟩ : Feature)
      = spreadMidEvent := by
  norm_num [mkEvent, defaultConfig, spreadMidEvent, pyDiv, pfAdd, pfMul,
    pfClip, qmin, qmax, np_interp, pyTrunc, intClip, pitch_curve]

theorem spread_event_last :
    mkEvent defaultConfig 0 10 1 90 (⟨2, 90, 10, 0, 1⟩ : Feature)
      = ⟨90, .fin 3, 30, 100⟩ := by
  norm_num [mkEvent, defaultConfig, pyDiv, pfAdd, pfMul, pfClip, qmin, qmax,
    np_interp, pyTrunc, intClip, pitch_curve]

theorem generate_events_spread :
    generate_events defaultConfig spreadFeatures
      = [⟨1/10, .fin 3, 30, 60⟩, spreadMidEvent, ⟨90, .fin 3, 30, 100⟩] := by
  rw [generate_events,
    show listMin (spreadFeatures.map (·.intensity)) = 0 from by decide,
    show listMax (spreadFeatures.map (·.intensity)) = 10 from by decide,
    show listMax (spreadFeatures.map (·.score)) = 1 from by decide,
    show spreadFeatures.length = 3 from rfl,
    show defaultConfig.max_duration = 90 from rfl, spread_times,
    show spreadFeatures
      = [⟨0, 90, 0, 0, 1⟩, ⟨1, 90, 5, 0, 1⟩, ⟨2, 90, 10, 0, 1⟩] from rfl]
  rw [List.zipWith_cons_cons, List.zipWith_cons_cons, List.zipWith_cons_cons]
  rw [spread_event_head, spread_event_mid, spread_event_last]
  rfl

/-! ## Claim theorems -/

/-- Claim **C3 — counterexample.** The claim asserts that with
`dynamicRange = (60, 100)` and all intensities equal, every velocity is the
midpoint `80`.  On the concrete all-equal-intensity feature set the code
instead produces velocity `100` for every event: `np.interp` with the
degenerate breakpoint list `[m, m]` returns the *last* ordinate
(`dynamic_range[1]`), not the midpoint, so the claimed value `80` is never
produced. -/
theorem C3_counterexample_velocity_is_100_not_80 :
    (generate_events defaultConfig equalIntensityFeatures).map (·.velocity)
      = [100, 100] ∧ (100 : ℤ) ≠ 80 := by
  constructor
  · decide
  · decide

/-- Claim **C3 — amended.** For every configuration and every feature set all of
whose intensities are equal, every generated event's velocity equals
`np.clip(dynamic_range[1], 0, 127)` — the *upper endpoint* of
`cfg.dynamicRange` (so `100` for the default `(60, 100)`), not the
midpoint: `np.interp` at the degenerate breakpoints `[m, m]` evaluates to
the last ordinate. -/
theorem C3_equal_intensity_velocity_upper_endpoint (cfg : Config)
    (fs : List Feature) (c : ℚ) (hall : ∀ f ∈ fs, f.intensity = c) :
    (generate_events cfg fs).map (·.velocity)
      = fs.map (fun _ => intClip cfg.dyn_hi 0 127) := by
  unfold generate_events
  refine map_zipWith_snd _ _ _ _ _ (by rw [linspace_length]) ?_
  intro a f hf
  have hne : fs ≠ [] := List.ne_nil_of_mem hf
  have hmapne : fs.map (·.intensity) ≠ [] := by
    simpa [List.map_eq_nil_iff] using hne
  have hconst : ∀ q ∈ fs.map (·.intensity), q = c := by
    intro q hq
    rcases List.mem_map.1 hq with ⟨g, hg, rfl⟩
    exact hall g hg
  have hmin : listMin (fs.map (·.intensity)) = c := listMin_of_const hconst hmapne
  have hmax : listMax (fs.map (·.intensity)) = c := listMax_of_const hconst hmapne
  have hfi : f.intensity = c := hall f hf
  simp only [mkEvent, hmin, hmax, hfi]
  rw [np_interp, if_pos (le_refl c), pyTrunc_intCast]

/-- Claim **C3 — witness** for the amended theorem at the concrete equal-intensity
feature set and the default configuration. -/
theorem C3_witness :
    (generate_events defaultConfig equalIntensityFeatures).map (·.velocity)
      = [100, 100] :=
  (C3_equal_intensity_velocity_upper_endpoint defaultConfig
    equalIntensityFeatures 5 (by decide)).trans (by decide)

/-- Claim **C4 — counterexample.** The claim asserts the ratio
`score / maxScoreOverSet` is treated as `1` when `maxScoreOverSet = 0`,
which at the concrete single zero-score feature would give
`duration = clamp(2·1.5, 0.5, 90) = 3`.  The code has no such guard: the
NumPy float division `0.0/0.0` yields `nan`, which `np.clip` propagates,
so the emitted duration is `nan`, not `3`. -/
theorem C4_counterexample_duration_nan_when_max_score_zero :
    (generate_events defaultConfig [zeroScoreFeature]).map (·.duration)
      = [PF.nan] ∧ PF.nan ≠ PF.fin 3 := by
  constructor
  · decide
  · decide

/-- Claim **C4 — amended.** For every configuration and feature set whose maximum
score is nonzero, each event's duration is
`clamp(cfg.baseNoteDuration · (0.5 + score/maxScoreOverSet), 0.5,
cfg.maxDurationSeconds)`; in particular a single feature with nonzero score
gets `clamp(baseNoteDuration · 1.5, 0.5, maxDurationSeconds)`.  There is no
guard for `maxScoreOverSet = 0`: in that case the division produces
`nan`/`-inf` instead (see the counterexample). -/
theorem C4_duration_formula (cfg : Config) (fs : List Feature)
    (hms : listMax (fs.map (·.score)) ≠ 0) :
    (generate_events cfg fs).map (·.duration) = fs.map (fun f =>
      PF.fin (qmin (qmax (cfg.note_duration *
        (1/2 + f.score / listMax (fs.map (·.score)))) (1/2)) cfg.max_duration)) := by
  unfold generate_events
  refine map_zipWith_snd _ _ _ _ _ (by rw [linspace_length]) ?_
  intro a f _
  simp only [mkEvent, pyDiv, if_neg hms, pfAdd, pfMul, pfClip]

/-- Claim **C4 — witness** for the amended theorem: a single feature of score `1`
under the default configuration receives duration
`clamp(2 · 1.5, 0.5, 90) = 3`. -/
theorem C4_witness :
    (generate_events defaultConfig [unitScoreFeature]).map (·.duration)
      = [PF.fin 3] :=
  (C4_duration_formula defaultConfig [unitScoreFeature] (by decide)).trans
    (by norm_num [unitScoreFeature, listMax, defaultConfig, qmin, qmax])

/-- Claim **C6 — counterexample.** The claim asserts every emitted duration lies
in `[0.5, cfg.maxDurationSeconds]` for *every* non-empty feature set.  For
the concrete feature set whose maximum score is `0` the emitted duration is
`nan`, which lies in no interval. -/
theorem C6_counterexample_nan_duration_out_of_range :
    (generate_events defaultConfig [zeroScoreFeature]).map
      (fun e => durBetween (1/2) defaultConfig.max_duration e.duration)
      = [false] := by
  decide

/-- Claim **C6 — amended.** Every generated event has `pitch ∈ [0,127]` and
`velocity ∈ [0,127]` (these hold unconditionally, by the `np.clip` calls);
and provided the feature set's maximum score is nonzero and
`0.5 ≤ cfg.maxDurationSeconds`, the duration is a finite value in
`[0.5, cfg.maxDurationSeconds]`.  Without the nonzero-max-score proviso the
duration can be `nan` (see the counterexample). -/
theorem C6_event_field_ranges (cfg : Config) (fs : List Feature) (e : Event)
    (he : e ∈ generate_events cfg fs)
    (hms : listMax (fs.map (·.score)) ≠ 0)
    (hmd : 1/2 ≤ cfg.max_duration) :
    (0 ≤ e.pitch ∧ e.pitch ≤ 127) ∧ (0 ≤ e.velocity ∧ e.velocity ≤ 127) ∧
      durBetween (1/2) cfg.max_duration e.duration = true := by
  rcases mem_zipWith he with ⟨t, f, _, hf, rfl⟩
  refine ⟨intClip_bounds _ 0 127 (by norm_num),
    intClip_bounds _ 0 127 (by norm_num), ?_⟩
  show durBetween (1/2) cfg.max_duration
    (pfClip (pfMul cfg.note_duration (pfAdd (1/2) (pyDiv f.score
      (listMax (fs.map (·.score)))))) (1/2) cfg.max_duration) = true
  rw [pyDiv, if_neg hms]
  simp only [pfAdd, pfMul, pfClip, durBetween]
  rw [Bool.and_eq_true, decide_eq_true_iff, decide_eq_true_iff]
  exact ⟨le_qmin (le_qmax_right _ _) hmd, qmin_le_right _ _⟩

/-- Claim **C6 — witness** at a concrete single-feature set under the default
configuration. -/
theorem C6_witness :
    (0 ≤ (⟨1/10, .fin 3, 30, 100⟩ : Event).pitch
        ∧ (⟨1/10, .fin 3, 30, 100⟩ : Event).pitch ≤ 127) ∧
      (0 ≤ (⟨1/10, .fin 3, 30, 100⟩ : Event).velocity
        ∧ (⟨1/10, .fin 3, 30, 100⟩ : Event).velocity ≤ 127) ∧
      durBetween (1/2) defaultConfig.max_duration
        (⟨1/10, .fin 3, 30, 100⟩ : Event).duration = true :=
  C6_event_field_ranges defaultConfig [unitScoreFeature] _
    (by rw [generate_events_single_unit]; exact List.mem_cons_self _ _)
    (by decide) (by norm_num [defaultConfig])

/-- Claim **C10.** For every configuration with `0 ≤ dynamicRange.min ≤
dynamicRange.max ≤ 127` and every feature set, each event's velocity lies
in `[dynamicRange.min, dynamicRange.max]` itself: the interpolation input
(a feature's intensity) always lies between the set's min and max
intensity, so the interpolated value lies between the range endpoints, and
the final `np.clip(·, 0, 127)` is then the identity. -/
theorem C10_velocity_within_dynamic_range (cfg : Config) (fs : List Feature)
    (e : Event) (h0 : 0 ≤ cfg.dyn_lo) (h1 : cfg.dyn_lo ≤ cfg.dyn_hi)
    (h2 : cfg.dyn_hi ≤ 127) (he : e ∈ generate_events cfg fs) :
    cfg.dyn_lo ≤ e.velocity ∧ e.velocity ≤ cfg.dyn_hi := by
  rcases mem_zipWith he with ⟨t, f, _, hf, rfl⟩
  have hmem : f.intensity ∈ fs.map (·.intensity) := List.mem_map_of_mem _ hf
  have hmin : listMin (fs.map (·.intensity)) ≤ f.intensity := listMin_le hmem
  have hmax : f.intensity ≤ listMax (fs.map (·.intensity)) := le_listMax hmem
  have hinterp := np_interp_bounds hmin hmax
    (show (cfg.dyn_lo : ℚ) ≤ (cfg.dyn_hi : ℚ) by exact_mod_cast h1)
  have htr := pyTrunc_bounds hinterp.1 hinterp.2
  show cfg.dyn_lo ≤ intClip (pyTrunc _) 0 127 ∧ intClip (pyTrunc _) 0 127 ≤ cfg.dyn_hi
  rw [intClip_of_bounds htr.1 htr.2 h0 h2]
  exact htr

/-- Claim **C10 — witness** at a concrete three-feature set with intensities
`0, 5, 10` under the default configuration: the middle event's velocity is
`80 ∈ [60, 100]`. -/
theorem C10_witness :
    defaultConfig.dyn_lo ≤ spreadMidEvent.velocity ∧
      spreadMidEvent.velocity ≤ defaultConfig.dyn_hi :=
  C10_velocity_within_dynamic_range defaultConfig spreadFeatures spreadMidEvent
    (by decide) (by decide) (by decide)
    (by rw [generate_events_spread]
        exact List.mem_cons_of_mem _ (List.mem_cons_self _ _))

/-- Claim **C1 — counterexample.** For a concrete all-identical-intensity input
(15 samples of intensity 5), `_extract_features` returns the empty feature
list `some []` — it does not raise: no `InsufficientDataError` class exists
anywhere in the program, so the claimed exception cannot be what happens. -/
theorem C1_counterexample_constant_input_returns_empty :
    extract_features ((List.range 15).map (fun i : ℕ => (i : ℚ)))
      (List.replicate 15 5) = some [] :=
  extract_features_replicate _ 15 5 (by norm_num)

/-- Claim **C1 — amended.** `_extract_features` never raises an
`InsufficientDataError` (no such class exists).  When the intensity series
is shorter than the smoothing window (11), `savgol_filter(...,
mode='interp')` raises a `ValueError` (modelled `none`) which propagates
uncaught; and on all-identical intensities of any length `≥ 11` (where the
standard deviation is 0 and no strict extremum exists) it returns the empty
feature list `some []` with no exception — `process_file` then prints a
warning and returns `False`.  There is likewise no check for "fewer than 2
valid extrema": any non-exceptional result, however short, is returned
as-is. -/
theorem C1_extraction_failure_modes (angles intensities : List ℚ)
    (n : ℕ) (c : ℚ) :
    (intensities.length < 11 → extract_features angles intensities = none) ∧
    (11 ≤ n → extract_features angles (List.replicate n c) = some []) := by
  constructor
  · intro h
    unfold extract_features
    rw [if_pos h]
  · intro h
    exact extract_features_replicate angles n c h

/-- Claim **C1 — witness** for the amended theorem: a 3-sample input is rejected
with the (modelled) `ValueError`, and an 11-sample constant input yields
`some []`. -/
theorem C1_witness :
    extract_features [] [1, 2, 3] = none ∧
      extract_features [] (List.replicate 11 (5 : ℚ)) = some [] :=
  ⟨(C1_extraction_failure_modes [] [1, 2, 3] 0 0).1 (by norm_num),
    (C1_extraction_failure_modes [] [] 11 5).2 (by norm_num)⟩

/-- Claim **C2 — counterexample** to the tie-break half of the claim.  On
the concrete symmetric input `tieAngles`/`tieIntens`, extraction returns
its two equal-score peak features as `[index 8, index 3]` — the CPython
iteration order of `set({3, 8})` (8 hashes to slot `8 mod 8 = 0`, before
3 in slot 3), which the stable sort preserves on the score tie — so the
output is *not* ordered by the claimed relation `featLE` (score strictly
descending with equal-score ties broken by ascending original sample
index). -/
theorem C2_counterexample_tie_order_not_ascending :
    extract_features tieAngles tieIntens = some tieFeatures ∧
      ¬ tieFeatures.Pairwise featLE :=
  ⟨tie_extract, by decide⟩

/-- Claim **C2 — amended.** Whenever extraction succeeds, the returned
features are sorted by score descending (non-increasing), and extraction
is a deterministic function of the input: rerunning it on an identical
input yields the identical list (int hashes are unrandomized in CPython,
so even the set-iteration tie order is reproducible).  What the original
claim gets wrong is only the tie-break: Python's stable
`sorted(key=lambda x: -x['score'])` keeps equal-score features in the
iteration order of `set(peaks + valleys)` — CPython hash-slot order,
modelled by `pySetList` — which is not ascending sample index in general
(see the counterexample). -/
theorem C2_extraction_sorted_and_deterministic
    (angles intensities angles2 intensities2 : List ℚ) (fs : List Feature)
    (h : extract_features angles intensities = some fs)
    (ha : angles2 = angles) (hi : intensities2 = intensities) :
    fs.Pairwise (fun f g => g.score ≤ f.score) ∧
      extract_features angles2 intensities2 = some fs := by
  constructor
  · unfold extract_features at h
    by_cases hlen : intensities.length < 11
    · rw [if_pos hlen] at h
      exact absurd h (by simp)
    · rw [if_neg hlen] at h
      injection h with h'
      subst h'
      exact sortDesc_sorted _
  · rw [ha, hi]
    exact h

/-- Claim **C2 — witness** at the concrete tie input: the returned pair of
equal-score features is (weakly) score-sorted, and re-extraction
reproduces it. -/
theorem C2_witness :
    List.Pairwise (fun f g => g.score ≤ f.score) tieFeatures ∧
      extract_features tieAngles tieIntens = some tieFeatures :=
  C2_extraction_sorted_and_deterministic tieAngles tieIntens tieAngles tieIntens
    tieFeatures tie_extract rfl rfl

/-- Claim **C5.** Under any configuration with `0.1 ≤ maxDurationSeconds`, and
any feature list already sorted by score descending (as `_generate_events`
receives it from extraction): one event is generated per feature; the
emitted onset times are exactly the `np.linspace(0.1, maxDuration, N)`
grid (`0.1` alone when `N = 1`, otherwise `0.1 + i·(maxDuration − 0.1)/(N−1)`);
onsets are non-decreasing in emission order; for `N ≥ 2` they span exactly
`[0.1, maxDuration]` inclusive; the i-th event is built from the i-th
feature (shown via its pitch field), so the head feature — which has the
maximal score — receives the earliest onset. -/
theorem C5_onsets_evenly_spaced_score_descending (cfg : Config)
    (fs : List Feature) (hcfg : 1/10 ≤ cfg.max_duration)
    (hsorted : fs.Pairwise (fun f g => g.score ≤ f.score)) :
    (generate_events cfg fs).length = fs.length ∧
    (generate_events cfg fs).map (·.time) = (List.range fs.length).map
      (fun i : ℕ => if fs.length = 1 then 1/10
        else 1/10 + (i : ℚ) * (cfg.max_duration - 1/10) / ((fs.length : ℚ) - 1)) ∧
    List.Chain' (· ≤ ·) ((generate_events cfg fs).map (·.time)) ∧
    (2 ≤ fs.length →
      ((generate_events cfg fs).map (·.time)).head? = some (1/10) ∧
      ((generate_events cfg fs).map (·.time)).getLast? = some cfg.max_duration) ∧
    (generate_events cfg fs).map (·.pitch)
      = fs.map (fun f => intClip (pitch_curve f.deviation) 0 127) ∧
    (∀ f ∈ fs, f.score ≤ fs.headI.score) := by
  have hlen : (generate_events cfg fs).length = fs.length := by
    unfold generate_events
    rw [List.length_zipWith, linspace_length, min_self]
  have htime : (generate_events cfg fs).map (·.time)
      = linspace (1/10) cfg.max_duration fs.length := by
    unfold generate_events
    rw [map_zipWith_fst _ _ (fun t => t) _ _ (by rw [linspace_length])
      (fun a f _ => rfl), List.map_id']
  have hform := linspace_eq_formula (1/10) cfg.max_duration fs.length
  have hstep : ∀ i : ℕ, i + 1 < fs.length →
      (if fs.length = 1 then (1:ℚ)/10
        else 1/10 + (i : ℚ) * (cfg.max_duration - 1/10) / ((fs.length : ℚ) - 1)) ≤
      (if fs.length = 1 then (1:ℚ)/10
        else 1/10 + ((i+1 : ℕ) : ℚ) * (cfg.max_duration - 1/10) / ((fs.length : ℚ) - 1)) := by
    intro i hi
    rw [if_neg (by omega), if_neg (by omega)]
    have hden : (0:ℚ) < (fs.length : ℚ) - 1 := by
      have : (2:ℚ) ≤ (fs.length : ℚ) := by exact_mod_cast (by omega : 2 ≤ fs.length)
      linarith
    have hnum : (0:ℚ) ≤ cfg.max_duration - 1/10 := by linarith
    have hstep0 : (0:ℚ) ≤ (cfg.max_duration - 1/10) / ((fs.length : ℚ) - 1) :=
      div_nonneg hnum (le_of_lt hden)
    have hii : ((i:ℚ)) ≤ ((i+1 : ℕ) : ℚ) := by push_cast; linarith
    have := mul_le_mul_of_nonneg_right hii hstep0
    calc (1:ℚ)/10 + (i : ℚ) * (cfg.max_duration - 1/10) / ((fs.length : ℚ) - 1)
        = 1/10 + (i : ℚ) * ((cfg.max_duration - 1/10) / ((fs.length : ℚ) - 1)) := by
          ring
      _ ≤ 1/10 + ((i+1 : ℕ) : ℚ) * ((cfg.max_duration - 1/10) / ((fs.length : ℚ) - 1)) := by
          linarith
      _ = 1/10 + ((i+1 : ℕ) : ℚ) * (cfg.max_duration - 1/10) / ((fs.length : ℚ) - 1) := by
          ring
  refine ⟨hlen, htime.trans hform, ?_, ?_, ?_, ?_⟩
  · rw [htime, hform]
    exact chain'_le_map_range _ _ hstep
  · intro h2
    constructor
    · rw [htime, hform, head?_map_range _ _ (by omega)]
      rw [if_neg (by omega)]
      norm_num
    · rw [htime, hform, getLast?_map_range _ _ (by omega)]
      rw [if_neg (by omega)]
      have hden : ((fs.length : ℚ) - 1) ≠ 0 := by
        have : (2:ℚ) ≤ (fs.length : ℚ) := by exact_mod_cast h2
        intro hc
        linarith
      have hcast : ((fs.length - 1 : ℕ) : ℚ) = (fs.length : ℚ) - 1 := by
        have h1 : 1 ≤ fs.length := by omega
        push_cast [h1]
        ring
      rw [hcast]
      refine congrArg some ?_
      field_simp
      ring
  · unfold generate_events
    exact map_zipWith_snd _ _ _ _ _ (by rw [linspace_length]) (fun a f _ => rfl)
  · intro f hf
    cases fs with
    | nil => simp at hf
    | cons g t =>
      rcases List.mem_cons.1 hf with rfl | ht
      · exact le_refl _
      · exact (List.pairwise_cons.1 hsorted).1 f ht

/-- Claim **C5 — witness** at a concrete sorted two-feature set under the default
configuration: the two onsets are exactly `0.1` and `90`. -/
theorem C5_witness :
    ((generate_events defaultConfig sortedPairFeatures).map (·.time)).head?
        = some (1/10) ∧
      ((generate_events defaultConfig sortedPairFeatures).map (·.time)).getLast?
        = some defaultConfig.max_duration :=
  (C5_onsets_evenly_spaced_score_descending defaultConfig sortedPairFeatures
    (by norm_num [defaultConfig]) (by decide)).2.2.2.1 (by decide)

/-- Claim **C7 — counterexample.** The ambient generator has no seed parameter:
it draws from the process-global NumPy RNG, which the program never seeds,
so a second assembly of the very same inputs starts from the RNG state the
first one left behind.  At the concrete state `drawRng` and duration 9 the
two successive ambient layers differ (already in the first grace-note
onset: `1/2` versus `43/8`), so assembling twice is *not* byte-identical. -/
theorem C7_counterexample_successive_calls_differ :
    (ambient_twice drawRng 9).1 ≠ (ambient_twice drawRng 9).2 := by
  have hgc : graceCount (9 : ℚ) = 3 := graceCount_nine
  intro h
  have h1 := congrArg (fun L => (L.grace.map (·.time)).head?) h
  simp only [ambient_twice, add_ambient, hgc] at h1
  rw [show (3:ℕ) = 2 + 1 from rfl] at h1
  simp only [List.range_succ, List.map_append, List.map_cons] at h1
  norm_num [graceNote, drawRng, RNG.shift, List.range_succ] at h1

/-- Claim **C7 — amended.** The randomness of `_add_ambient_effects` is *not*
seedable per call: the method takes no RNG argument and reads the shared
global NumPy generator.  What does hold is that its output is a
deterministic function of that hidden global state: it depends only on the
`⌊d/3⌋` uniform draws and `2·⌊d/3⌋` integer draws it consumes, so
byte-identical repetition requires externally restoring the global RNG
state, which the program never does (see the counterexample). -/
theorem C7_ambient_determined_by_consumed_draws (g g' : RNG) (d : ℚ)
    (hu : ∀ i < graceCount d, g.u i = g'.u i)
    (hn : ∀ i < 2 * graceCount d, g.nv i = g'.nv i) :
    add_ambient g d = add_ambient g' d := by
  simp only [add_ambient, AmbientLayers.mk.injEq]
  refine ⟨trivial, ?_, trivial⟩
  refine List.map_congr_left ?_
  intro i hi
  have hi' : i < graceCount d := List.mem_range.1 hi
  unfold graceNote
  rw [hu i hi', hn (2 * i) (by omega), hn (2 * i + 1) (by omega)]

/-- Claim **C7 — witness** for the amended theorem: two distinct RNG states that
agree on the consumed prefix (3 uniform draws, 6 integer draws for
duration 9) produce identical ambient layers. -/
theorem C7_witness : add_ambient zeroRng 9 = add_ambient prefixRng 9 :=
  C7_ambient_determined_by_consumed_draws zeroRng prefixRng 9
    (by intro i hi
        have h3 : i < 3 := by rwa [graceCount_nine] at hi
        simp [zeroRng, prefixRng, h3])
    (by intro i hi
        have h6 : i < 6 := by rw [graceCount_nine] at hi; omega
        simp [zeroRng, prefixRng, h6])

/-- Claim **C8.** For every duration `d ≥ 2.5` and every global RNG state whose
uniform draws lie in `[0,1)`: the grace layer has exactly `⌊d/3⌋` notes,
each on track 3 with onset in `[0.5, d−2]`, duration `0.15`, pitch in
`{84, 86, 89}` and velocity in `[30, 50]` after clamping
(`np.random.randint(30, 50)` actually draws from `{30,…,49}`); the pulse
layer places one note every 4 seconds starting at `0.2`, i.e. its onset
list is `0.2 + 4k` for `k < ⌈(d − 0.2)/4⌉`, each note on track 2 with
pitch 36, duration 3, velocity 35, and onset strictly below `d`. -/
theorem C8_ambient_layer_structure (g : RNG) (d : ℚ)
    (hu : ∀ i, 0 ≤ g.u i ∧ g.u i < 1) (hd : 5/2 ≤ d) :
    (add_ambient g d).grace.length = (⌊d / 3⌋).toNat ∧
    (∀ nt ∈ (add_ambient g d).grace, nt.track = 3 ∧
      (1/2 ≤ nt.time ∧ nt.time ≤ d - 2) ∧ nt.dur = 3/20 ∧
      nt.pitch ∈ ([84, 86, 89] : List ℤ) ∧ 30 ≤ nt.vel ∧ nt.vel ≤ 50) ∧
    (add_ambient g d).pulse.map (·.time)
      = (List.range (⌈(d - 1/5) / 4⌉).toNat).map (fun k : ℕ => 1/5 + (k : ℚ) * 4) ∧
    (∀ nt ∈ (add_ambient g d).pulse,
      nt.track = 2 ∧ nt.pitch = 36 ∧ nt.dur = 3 ∧ nt.vel = 35 ∧ nt.time < d) := by
  refine ⟨?_, ?_, ?_, ?_⟩
  · simp [add_ambient, graceCount]
  · intro nt hnt
    rcases List.mem_map.1 hnt with ⟨i, _, rfl⟩
    have hcoef : (0:ℚ) ≤ d - 2 - 1/2 := by linarith
    have hui := hu i
    refine ⟨rfl, ⟨?_, ?_⟩, rfl, ?_, ?_, ?_⟩
    · have := mul_nonneg hcoef hui.1
      show 1/2 ≤ 1/2 + (d - 2 - 1/2) * g.u i
      linarith
    · have := mul_le_of_le_one_right hcoef (le_of_lt hui.2)
      show 1/2 + (d - 2 - 1/2) * g.u i ≤ d - 2
      linarith
    · show ([84, 86, 89] : List ℤ).getD (g.nv (2 * i) % 3) 84 ∈ _
      have h3 : g.nv (2 * i) % 3 < 3 := Nat.mod_lt _ (by norm_num)
      set r := g.nv (2 * i) % 3 with hr
      interval_cases r <;> simp
    · show (30:ℤ) ≤ intClip (30 + (g.nv (2 * i + 1) % 20 : ℕ)) 0 127
      have hv1 : (30:ℤ) ≤ 30 + ((g.nv (2 * i + 1) % 20 : ℕ) : ℤ) := by omega
      have hv2 : 30 + ((g.nv (2 * i + 1) % 20 : ℕ) : ℤ) ≤ 49 := by omega
      rw [intClip_of_bounds hv1 hv2 (by norm_num) (by norm_num)]
      omega
    · show intClip (30 + (g.nv (2 * i + 1) % 20 : ℕ)) 0 127 ≤ (50:ℤ)
      have hv1 : (30:ℤ) ≤ 30 + ((g.nv (2 * i + 1) % 20 : ℕ) : ℤ) := by omega
      have hv2 : 30 + ((g.nv (2 * i + 1) % 20 : ℕ) : ℤ) ≤ 49 := by omega
      rw [intClip_of_bounds hv1 hv2 (by norm_num) (by norm_num)]
      omega
  · simp [add_ambient, arange, List.map_map]
  · intro nt hnt
    simp only [add_ambient, arange, List.map_map, List.mem_map] at hnt
    rcases hnt with ⟨k, hk, rfl⟩
    have hk' : (k : ℤ) < ⌈(d - 1/5) / 4⌉ := by
      have := List.mem_range.1 hk
      omega
    have hkq : (k : ℚ) < (d - 1/5) / 4 := by
      have := Int.lt_ceil.1 hk'
      exact_mod_cast this
    have h4 : (k : ℚ) * 4 < d - 1/5 := by
      rw [lt_div_iff₀ (by norm_num : (0:ℚ) < 4)] at hkq
      linarith
    exact ⟨rfl, rfl, rfl, rfl, by show 1/5 + (k:ℚ) * 4 < d; linarith⟩

/-- Claim **C8 — witness** at the all-zeros RNG state and duration 9: three grace
notes and pulse onsets `0.2, 4.2, 8.2`. -/
theorem C8_witness :
    (add_ambient zeroRng 9).grace.length = 3 ∧
      (add_ambient zeroRng 9).pulse.map (·.time) = [1/5, 21/5, 41/5] := by
  have h := C8_ambient_layer_structure zeroRng 9
    (fun i => by constructor <;> norm_num [zeroRng]) (by norm_num)
  refine ⟨h.1.trans ?_, h.2.2.1.trans ?_⟩
  · rw [show ⌊(9:ℚ) / 3⌋ = (3:ℤ) from by norm_num]
    rfl
  rw [show ((⌈((9:ℚ) - 1/5) / 4⌉).toNat) = 3 from by
    rw [show ⌈((9:ℚ) - 1/5) / 4⌉ = (3:ℤ) from
      Int.ceil_eq_iff.2 (by norm_num)]
    rfl]
  rw [show (3:ℕ) = 2 + 1 from rfl]
  simp only [List.range_succ, List.map_append, List.map_cons, List.range_zero,
    List.map_nil]
  norm_num

/-- Claim **C9 — counterexample.** A well-shaped two-column table containing
`nan` entries is *accepted* by `_load_data` (which validates only the
shape), so non-finite values are not rejected at the loading boundary and
do reach feature extraction, contrary to the claim. -/
theorem C9_counterexample_nan_rows_accepted :
    rowsAllFinite nanRows = false ∧ (load_data nanRows).isSome = true := by
  exact ⟨by decide, by decide⟩

/-- Claim **C9 — amended.** `_load_data` validates only the *shape* of the parsed
table: an input is accepted iff it forms a 2-D array (at least two rows)
with exactly two columns, in which case the two columns are returned
unchanged — including any `nan`/`inf` entries, which `np.loadtxt` parses
without complaint and which therefore flow on to `_extract_features`.
Every malformed shape yields `None` (the caught-exception path). -/
theorem C9_load_data_validates_shape_only (rows : List (List PF)) :
    (2 ≤ rows.length ∧ (∀ r ∈ rows, r.length = 2) →
      load_data rows = some (rows.map (fun r => r.getD 0 .nan),
        rows.map (fun r => r.getD 1 .nan))) ∧
    (¬(2 ≤ rows.length ∧ ∀ r ∈ rows, r.length = 2) → load_data rows = none) := by
  constructor
  · intro h
    rw [load_data, if_pos h]
  · intro h
    rw [load_data, if_neg h]

/-- Claim **C9 — witness** for the amended theorem: the `nan`-bearing table is
accepted and its columns (still containing `nan`) are returned. -/
theorem C9_witness :
    load_data nanRows = some ([.fin 0, .fin 1], [.nan, .nan]) :=
  ((C9_load_data_validates_shape_only nanRows).1 (by decide)).trans (by decide)

end OreMusic
